import Mathlib

/-!
Verification development for the MLS group state machine of this repository.

The repository sources available here are the crate root (src/openmls/src/lib.rs)
and two test suites (tests/book_code.rs and src/group/tests/external_proposal.rs);
the MlsGroup implementation modules themselves (group, framing, messages, schedule,
treesync) are declared in lib.rs but their code is not present. The definitions
below therefore model the group state machine from the specification (spec.md),
with the in-repository tests as the authority wherever they pin down behaviour.
Cryptographic primitives are external collaborators per the spec, so secrets are
modelled symbolically: two secrets are equal exactly when they were derived by the
same chain of KDF steps from the same inputs.
-/

namespace OpenMLS

/-- Byte strings, modelled as lists of naturals. -/
abbrev Bytes := List Nat

/-- Modelled from the spec: the crypto provider (sec. 6) is an external
collaborator, so epoch secrets and everything derived from them are represented
symbolically as derivation trees. fresh models RNG output, zero the all-zero
secret (psk_secret = 0 if none, sec. 4.4), extract and the labelled expansions
mirror KDF.Extract, DeriveSecret and ExpandWithLabel. -/
inductive SecretExpr where
  | fresh (seed : Nat)
  | zero
  | extract (salt ikm : SecretExpr)
  | derive (s : SecretExpr) (label : String)
  | expand (s : SecretExpr) (label : String) (ctx : Bytes) (len : Nat)
  deriving DecidableEq

/-- Modelled from the spec: Credential, sec. 3 (type field omitted, only Basic
credentials appear in the tests; equality is byte equality). -/
structure Credential where
  identity : Bytes
  signatureKey : Bytes
  deriving DecidableEq

/-- Modelled from the spec: LeafNode, sec. 3, restricted to the fields the
claims observe (credential and HPKE encryption key; capabilities, lifetime,
parent hash and the leaf signature live in the missing treesync module). -/
structure LeafNode where
  credential : Credential
  encryptionKey : Nat
  deriving DecidableEq

/-- Modelled from the spec: KeyPackage, sec. 3 (protocol version, ciphersuite
and the key-package signature are fixed per group and omitted). -/
structure KeyPackage where
  credential : Credential
  initKey : Nat
  encryptionKey : Nat
  deriving DecidableEq

/-- The leaf node advertised by a key package. -/
def KeyPackage.leafNode (kp : KeyPackage) : LeafNode :=
  { credential := kp.credential, encryptionKey := kp.encryptionKey }

/-- Modelled from the spec: Member as yielded by members(), sec. 6. -/
structure Member where
  index : Nat
  identity : Bytes
  signatureKey : Bytes
  encryptionKey : Nat
  deriving DecidableEq

/-- Modelled from the spec: sender kinds, sec. 4.6. -/
inductive Sender where
  | member (leafIndex : Nat)
  | externalIndex (idx : Nat)
  | newMemberProposal
  | newMemberCommit
  deriving DecidableEq

/-- Modelled from the spec: Proposal, sec. 3. Payloads not observed by the
claims are reduced to the data the state machine uses. -/
inductive Proposal where
  | add (keyPackage : KeyPackage)
  | update (leafNode : LeafNode)
  | remove (removed : Nat)
  | preSharedKey (pskId : Bytes)
  | reInit (groupId : Bytes)
  | externalInit (kemOutput : Bytes)
  | groupContextExtensions (ext : Bytes)
  deriving DecidableEq

/-- True exactly for ExternalInit proposals. -/
def Proposal.isExternalInit : Proposal → Bool
  | .externalInit _ => true
  | _ => false

/-- Modelled from the spec: a proposal together with its original sender, as
kept by the proposal store (sec. 4.7) and reported by staged commits. -/
structure QueuedProposal where
  proposal : Proposal
  sender : Sender
  deriving DecidableEq

/-- Modelled from the spec: Commit, sec. 3. The proposal list is the resolved
list (by-reference proposals first, then inline, sec. 4.7); the update path is
reduced to its leaf node and the commit secret that decrypting the path yields
(sec. 4.3), since HPKE is external. -/
structure Commit where
  proposals : List QueuedProposal
  path : Option LeafNode
  commitSecret : SecretExpr
  deriving DecidableEq

/-- Modelled from the spec: the content variants of FramedContent, sec. 3. -/
inductive FramedContentBody where
  | application (bytes : Bytes)
  | proposal (p : Proposal)
  | commit (c : Commit)
  deriving DecidableEq

/-- Content types, as visible in the unencrypted framing header. -/
inductive ContentType where
  | application
  | proposal
  | commit
  deriving DecidableEq

/-- The content type of a framed content body. -/
def FramedContentBody.contentType : FramedContentBody → ContentType
  | .application _ => .application
  | .proposal _ => .proposal
  | .commit _ => .commit

/-- True exactly when the body is an Add proposal (the only content allowed
from a NewMemberProposal sender, sec. 4.6). -/
def FramedContentBody.isExternalAddBody : FramedContentBody → Bool
  | .proposal (.add _) => true
  | _ => false

/-- Wire forms of a framed message. -/
inductive WireFormat where
  | publicMessage
  | privateMessage
  deriving DecidableEq

/-- Modelled from the spec: the incoming half of a wire format policy,
sec. 4.6 (pure_plaintext, pure_ciphertext, mixed). -/
inductive IncomingWireFormatPolicy where
  | alwaysPlaintext
  | alwaysCiphertext
  | mixed
  deriving DecidableEq

/-- Modelled from the spec: the outgoing half of a wire format policy. -/
inductive OutgoingWireFormatPolicy where
  | alwaysPlaintext
  | alwaysCiphertext
  deriving DecidableEq

/-- Modelled from the spec: a wire format policy, sec. 4.6. -/
structure WireFormatPolicy where
  outgoing : OutgoingWireFormatPolicy
  incoming : IncomingWireFormatPolicy
  deriving DecidableEq

/-- Modelled from the spec, sec. 4.6: whether an inbound wire form is
compatible with the incoming policy. Under pure_plaintext every message must be
a PublicMessage, under pure_ciphertext a PrivateMessage; under mixed a
handshake message may be either while application data must be private. -/
def IncomingWireFormatPolicy.accepts :
    IncomingWireFormatPolicy → WireFormat → ContentType → Bool
  | .alwaysPlaintext, .publicMessage, _ => true
  | .alwaysPlaintext, .privateMessage, _ => false
  | .alwaysCiphertext, .privateMessage, _ => true
  | .alwaysCiphertext, .publicMessage, _ => false
  | .mixed, .publicMessage, .application => false
  | .mixed, _, _ => true

/-- The pure plaintext wire format policy. -/
def purePlaintextWireFormatPolicy : WireFormatPolicy :=
  { outgoing := .alwaysPlaintext, incoming := .alwaysPlaintext }

/-- The pure ciphertext wire format policy. -/
def pureCiphertextWireFormatPolicy : WireFormatPolicy :=
  { outgoing := .alwaysCiphertext, incoming := .alwaysCiphertext }

/-- The mixed policy with plaintext outgoing handshake messages. -/
def mixedPlaintextWireFormatPolicy : WireFormatPolicy :=
  { outgoing := .alwaysPlaintext, incoming := .mixed }

/-- The mixed policy with ciphertext outgoing messages. -/
def mixedCiphertextWireFormatPolicy : WireFormatPolicy :=
  { outgoing := .alwaysCiphertext, incoming := .mixed }

/-- All supported wire format policies, as iterated by the test
external_add_proposal_should_succeed. -/
def wireFormatPolicies : List WireFormatPolicy :=
  [purePlaintextWireFormatPolicy, pureCiphertextWireFormatPolicy,
   mixedPlaintextWireFormatPolicy, mixedCiphertextWireFormatPolicy]

/-- Modelled from the spec: the per-group configuration fields the claims
observe (the wire format policy, sec. 4.6; padding and sender-ratchet window
sizes do not influence any claim). -/
structure MlsGroupConfig where
  wireFormatPolicy : WireFormatPolicy
  deriving DecidableEq

/-- Modelled from the spec: PublicMessage, sec. 3. The signature is modelled
by recording the credential that produced it (signature schemes are external);
the membership tag lives in the abstracted framing layer. -/
structure PublicMessage where
  groupId : Bytes
  epoch : Nat
  sender : Sender
  body : FramedContentBody
  signer : Credential
  deriving DecidableEq

/-- Set the sender of a public message, as the test
new_member_proposal_sender_should_be_reserved_for_join_proposals does. -/
def PublicMessage.setSender (m : PublicMessage) (s : Sender) : PublicMessage :=
  { m with sender := s }

/-- Modelled from the spec: PrivateMessage, sec. 3. The AEAD layer is
symbolic: decryption succeeds exactly when the receiver derives the same
encryption secret the message was sealed under. The sender of a private
message is always a member; the content type is visible in the header. -/
structure PrivateMessage where
  groupId : Bytes
  epoch : Nat
  senderIndex : Nat
  body : FramedContentBody
  signer : Credential
  encSecret : SecretExpr
  deriving DecidableEq

/-- An inbound protocol message: a public or a private message. -/
inductive ProtocolMessage where
  | publicMessage (m : PublicMessage)
  | privateMessage (m : PrivateMessage)
  deriving DecidableEq

/-- The wire form of an inbound message. -/
def ProtocolMessage.wireFormat : ProtocolMessage → WireFormat
  | .publicMessage _ => .publicMessage
  | .privateMessage _ => .privateMessage

/-- The content type of an inbound message (for private messages it is read
from the unencrypted header). -/
def ProtocolMessage.contentType : ProtocolMessage → ContentType
  | .publicMessage m => m.body.contentType
  | .privateMessage m => m.body.contentType

/-- Whether an inbound message comes from outside the group. A private
message always comes from a member; a public message is external exactly when
its sender is not a member. The in-repository test
external_add_proposal_should_succeed shows such messages are accepted under
every wire format policy, so they bypass the incoming policy check. -/
def ProtocolMessage.isExternal : ProtocolMessage → Bool
  | .publicMessage m =>
    match m.sender with
    | .member _ => false
    | _ => true
  | .privateMessage _ => false

/-- The body of an outbound message. -/
inductive MlsMessageOutBody where
  | publicMessage (m : PublicMessage)
  | privateMessage (m : PrivateMessage)
  deriving DecidableEq

/-- An outbound message, with its body exposed as in the tests. -/
structure MlsMessageOut where
  body : MlsMessageOutBody
  deriving DecidableEq

/-- Reinterpret an outbound message as an inbound protocol message. -/
def MlsMessageOut.intoProtocolMessage : MlsMessageOut → ProtocolMessage
  | ⟨.publicMessage m⟩ => .publicMessage m
  | ⟨.privateMessage m⟩ => .privateMessage m

/-- The framed content carried by an outbound message. -/
def MlsMessageOut.framedBody : MlsMessageOut → FramedContentBody
  | ⟨.publicMessage m⟩ => m.body
  | ⟨.privateMessage m⟩ => m.body

/-- The sender of an outbound message. -/
def MlsMessageOut.senderOf : MlsMessageOut → Sender
  | ⟨.publicMessage m⟩ => m.sender
  | ⟨.privateMessage m⟩ => .member m.senderIndex

/-- Modelled from the spec: the ratchet tree (treesync module missing),
reduced to its leaf slots. Parent nodes, parent hashes and unmerged leaves
only influence path encryption, which is symbolic here; blanks are None. -/
abbrev RatchetTree := List (Option LeafNode)

/-- Modelled from the spec, sec. 4.3: add fills the leftmost blank leaf slot,
extending the tree if full. -/
def treeAddLeaf (t : RatchetTree) (leaf : LeafNode) : RatchetTree :=
  match t.findIdx? Option.isNone with
  | some i => t.set i (some leaf)
  | none => t ++ [some leaf]

/-- Modelled from the spec, sec. 4.3: remove blanks the leaf. -/
def treeRemoveLeaf (t : RatchetTree) (i : Nat) : RatchetTree :=
  t.set i none

/-- Modelled from the spec, sec. 4.3: update replaces the leaf. -/
def treeUpdateLeaf (t : RatchetTree) (i : Nat) (leaf : LeafNode) : RatchetTree :=
  t.set i (some leaf)

/-- Modelled from the spec, sec. 4.7/4.3: the effect of one validated proposal
on the tree. Updates apply at the sending member's leaf; proposals that do not
touch the tree (PSK, ReInit, ExternalInit, GroupContextExtensions) leave it
unchanged. -/
def applyQueuedProposal (t : RatchetTree) (qp : QueuedProposal) : RatchetTree :=
  match qp.proposal with
  | .add kp => treeAddLeaf t kp.leafNode
  | .remove i => treeRemoveLeaf t i
  | .update leaf =>
    match qp.sender with
    | .member i => treeUpdateLeaf t i leaf
    | _ => t
  | _ => t

/-- Apply a commit's proposal list to the tree, in list order. -/
def applyProposalList (t : RatchetTree) (qps : List QueuedProposal) : RatchetTree :=
  qps.foldl applyQueuedProposal t

/-- The members of a tree: non-blank leaves with their indices. -/
def treeMembers (t : RatchetTree) : List Member :=
  t.enum.filterMap fun p =>
    p.2.map fun l =>
      { index := p.1, identity := l.credential.identity,
        signatureKey := l.credential.signatureKey, encryptionKey := l.encryptionKey }

/-- Concatenate a list of byte strings. -/
def bytesConcat (l : List Bytes) : Bytes :=
  l.foldr (fun a b => a ++ b) []

/-- A length-prefixed byte string, for the deterministic encoding (sec. 4.1). -/
def lenFramed (b : Bytes) : Bytes :=
  b.length :: b

/-- Deterministic encoding of a leaf slot. -/
def encodeLeafSlot : Option LeafNode → Bytes
  | none => [0]
  | some l =>
    1 :: (lenFramed l.credential.identity ++ lenFramed l.credential.signatureKey
      ++ [l.encryptionKey])

/-- Modelled from the spec, sec. 4.3: the tree hash, a canonical encoding of
the flattened tree (the hash function is external, so the encoding itself
stands for its digest). -/
def treeHashOf (t : RatchetTree) : Bytes :=
  bytesConcat (t.map encodeLeafSlot)

/-- Modelled from the spec, sec. 3: the serialized GroupContext used as
derivation context (group id, epoch, tree hash). -/
def groupContextBytes (gid : Bytes) (epoch : Nat) (t : RatchetTree) : Bytes :=
  lenFramed gid ++ (epoch :: treeHashOf t)

/-- The length in bytes of the external hash function's output. -/
def hashLen : Nat := 32

/-- Modelled from the spec, sec. 4.4: the key schedule for one epoch
transition. joiner_secret = Extract(init_secret_prev, commit_secret);
member_secret = Extract(joiner_secret, psk_secret) with psk_secret = 0 when no
PSK is in play (PSK proposals are outside the claims); epoch_secret =
ExpandWithLabel(member_secret, label epoch, group_context, Hash.len). -/
def keySchedule (initSecretPrev commitSecret : SecretExpr) (ctx : Bytes) : SecretExpr :=
  let joinerSecret := SecretExpr.extract initSecretPrev commitSecret
  let memberSecret := SecretExpr.extract joinerSecret .zero
  SecretExpr.expand memberSecret "epoch" ctx hashLen

/-- Modelled from the spec, sec. 4.4: the init secret chained into the next
epoch, derived from the epoch secret. -/
def initSecretOf (epochSecret : SecretExpr) : SecretExpr :=
  epochSecret.derive "init"

/-- The modulus of the 64-bit epoch counter. -/
def epochModulus : Nat := 2 ^ 64

/-- Modelled from the spec: error kinds, sec. 7 (State group). -/
inductive MlsGroupStateError where
  | useAfterEviction
  | pendingCommitExists
  | noPendingCommit
  deriving DecidableEq

/-- Modelled from the spec: EmptyInput errors, sec. 7 and scenario S6. -/
inductive EmptyInputError where
  | addMembers
  | removeMembers
  deriving DecidableEq

/-- Modelled from the spec and the test book_operations: commit creation
errors, sec. 4.7 - CannotRemoveSelf for a Remove of the committer's own leaf;
the spec does not name the error for a Remove whose target is not a current
member, so that rule gets a distinct constructor. -/
inductive CreateCommitError where
  | cannotRemoveSelf
  | invalidRemoveTarget
  deriving DecidableEq

/-- Errors of add_members. -/
inductive AddMembersError where
  | emptyInput (e : EmptyInputError)
  | groupStateError (e : MlsGroupStateError)
  | createCommitError (e : CreateCommitError)
  deriving DecidableEq

/-- Errors of remove_members. -/
inductive RemoveMembersError where
  | emptyInput (e : EmptyInputError)
  | groupStateError (e : MlsGroupStateError)
  | createCommitError (e : CreateCommitError)
  deriving DecidableEq

/-- Errors of commit_to_pending_proposals, matching the test book_operations
where a self-remove yields CreateCommitError(CannotRemoveSelf). -/
inductive CommitToPendingProposalsError where
  | createCommitError (e : CreateCommitError)
  | groupStateError (e : MlsGroupStateError)
  deriving DecidableEq

/-- Modelled from the spec: validation errors, sec. 7. The spec does not name
the error for an invalid NewMemberCommit, so it is a distinct constructor. -/
inductive ValidationError where
  | notAnExternalAddProposal
  | wrongGroupId
  | wrongEpoch
  | unknownMember
  | invalidExternalCommit
  deriving DecidableEq

/-- Modelled from the spec and the tests: errors of process_message.
InvalidSignature and IncompatibleWireFormat are at the top level, validation
errors are wrapped, exactly as the external_proposal tests match them. -/
inductive ProcessMessageError where
  | invalidSignature
  | incompatibleWireFormat
  | unableToDecrypt
  | validationError (e : ValidationError)
  | groupStateError (e : MlsGroupStateError)
  deriving DecidableEq

/-- Errors of create_message. -/
inductive CreateMessageError where
  | groupStateError (e : MlsGroupStateError)
  deriving DecidableEq

/-- Errors of leave_group. -/
inductive LeaveGroupError where
  | groupStateError (e : MlsGroupStateError)
  deriving DecidableEq

/-- Modelled from the spec: a staged commit, sec. 4.8 and 9 - a first-class
value holding the candidate tree, epoch and key schedule, merged atomically.
selfRemoved records whether the commit removes the local leaf, as reported by
self_removed() in the test book_operations. -/
structure StagedCommit where
  proposals : List QueuedProposal
  newEpoch : Nat
  newTree : RatchetTree
  newEpochSecret : SecretExpr
  selfRemoved : Bool
  deriving DecidableEq

/-- The remove proposals of a staged commit, as remove_proposals() yields. -/
def StagedCommit.removeProposals (sc : StagedCommit) : List QueuedProposal :=
  sc.proposals.filter fun qp =>
    match qp.proposal with
    | .remove _ => true
    | _ => false

/-- The add proposals of a staged commit, as add_proposals() yields. -/
def StagedCommit.addProposals (sc : StagedCommit) : List QueuedProposal :=
  sc.proposals.filter fun qp =>
    match qp.proposal with
    | .add _ => true
    | _ => false

/-- Modelled from the spec: the Welcome message, sec. 4.9, reduced to the
group state it transports to the new joiner (the HPKE sealing of the joiner
secret and the GroupInfo signature are external crypto). -/
structure Welcome where
  groupId : Bytes
  epoch : Nat
  tree : RatchetTree
  epochSecret : SecretExpr
  deriving DecidableEq

/-- Modelled from the spec: the per-member group state, sec. 3 and 4.8. The
live state owns the group id, epoch, tree and current epoch secret; the
pending commit is a single optional staged commit; active is false once a
commit removing the local leaf was merged. -/
structure MlsGroup where
  config : MlsGroupConfig
  groupId : Bytes
  epoch : Nat
  tree : RatchetTree
  epochSecret : SecretExpr
  ownLeafIndex : Nat
  credential : Credential
  active : Bool
  pendingProposals : List QueuedProposal
  pendingCommit : Option StagedCommit
  deriving DecidableEq

/-- is_active(). -/
def MlsGroup.isActive (g : MlsGroup) : Bool := g.active

/-- members(): the non-blank leaves of the tree. -/
def MlsGroup.members (g : MlsGroup) : List Member := treeMembers g.tree

/-- export_ratchet_tree(). -/
def MlsGroup.exportRatchetTree (g : MlsGroup) : RatchetTree := g.tree

/-- Modelled from the spec, sec. 4.4: epoch_authenticator(), derived from the
epoch secret under the authentication label. -/
def MlsGroup.epochAuthenticator (g : MlsGroup) : SecretExpr :=
  g.epochSecret.derive "authentication"

/-- Modelled from the spec, sec. 4.4 and 6: export_secret(label, context,
length), an expansion of the exporter secret. -/
def MlsGroup.exportSecret (g : MlsGroup) (label : String) (ctx : Bytes)
    (len : Nat) : SecretExpr :=
  SecretExpr.expand ((g.epochSecret.derive "exporter").derive label) "exported" ctx len

/-- Modelled from the spec: new(config, group_id, credential), sec. 6. The
creator sits at leaf 0 of a one-leaf tree at epoch 0; the fresh HPKE leaf key
and the initial epoch secret come from the external RNG (encKey, seed). -/
def MlsGroup.new (config : MlsGroupConfig) (gid : Bytes) (cred : Credential)
    (encKey : Nat) (seed : Nat) : MlsGroup :=
  { config := config, groupId := gid, epoch := 0,
    tree := [some { credential := cred, encryptionKey := encKey }],
    epochSecret := .fresh seed, ownLeafIndex := 0, credential := cred,
    active := true, pendingProposals := [], pendingCommit := none }

/-- Modelled from the spec: new_from_welcome, sec. 4.9 and 6 - the joiner
adopts the group state carried by the Welcome. -/
def MlsGroup.newFromWelcome (config : MlsGroupConfig) (w : Welcome)
    (ownIndex : Nat) (cred : Credential) : MlsGroup :=
  { config := config, groupId := w.groupId, epoch := w.epoch, tree := w.tree,
    epochSecret := w.epochSecret, ownLeafIndex := ownIndex, credential := cred,
    active := true, pendingProposals := [], pendingCommit := none }

/-- Modelled from the spec, sec. 4.8: staging a commit builds the candidate
tree, advances the epoch by one (64-bit counter) and derives the next key
schedule from the previous init secret, the commit secret and the new group
context. selfRemoved is set when the commit removes the local leaf. -/
def MlsGroup.stageCommit (g : MlsGroup) (c : Commit) : StagedCommit :=
  let newTree := applyProposalList g.tree c.proposals
  let newEpoch := (g.epoch + 1) % epochModulus
  let ctx := groupContextBytes g.groupId newEpoch newTree
  { proposals := c.proposals, newEpoch := newEpoch, newTree := newTree,
    newEpochSecret := keySchedule (initSecretOf g.epochSecret) c.commitSecret ctx,
    selfRemoved := c.proposals.any fun qp =>
      decide (qp.proposal = .remove g.ownLeafIndex) }

/-- Modelled from the spec, sec. 4.8: merge_staged_commit replaces the live
epoch, tree and key schedule with the staged ones in one step, discards
pending proposals and the pending commit, and deactivates the group exactly
when the staged commit removed the local leaf. -/
def MlsGroup.mergeStagedCommit (g : MlsGroup) (sc : StagedCommit) :
    Except MlsGroupStateError MlsGroup :=
  if g.active = false then .error .useAfterEviction
  else .ok { g with epoch := sc.newEpoch, tree := sc.newTree,
                    epochSecret := sc.newEpochSecret, active := !sc.selfRemoved,
                    pendingProposals := [], pendingCommit := none }

/-- Modelled from the spec, sec. 6: merge_pending_commit merges the locally
created staged commit. -/
def MlsGroup.mergePendingCommit (g : MlsGroup) : Except MlsGroupStateError MlsGroup :=
  match g.pendingCommit with
  | none => .error .noPendingCommit
  | some sc => g.mergeStagedCommit sc

/-- Stage and merge an inbound commit, the processing path of a receiver. -/
def MlsGroup.mergeInboundCommit (g : MlsGroup) (c : Commit) :
    Except MlsGroupStateError MlsGroup :=
  g.mergeStagedCommit (g.stageCommit c)

/-- Merge a sequence of inbound commits in order. -/
def MlsGroup.mergeCommits (g : MlsGroup) : List Commit → Except MlsGroupStateError MlsGroup
  | [] => .ok g
  | c :: rest =>
    match g.mergeInboundCommit c with
    | .error e => .error e
    | .ok g1 => g1.mergeCommits rest

/-- store_pending_proposal. -/
def MlsGroup.storePendingProposal (g : MlsGroup) (qp : QueuedProposal) : MlsGroup :=
  { g with pendingProposals := g.pendingProposals ++ [qp] }

/-- clear_pending_proposals. -/
def MlsGroup.clearPendingProposals (g : MlsGroup) : MlsGroup :=
  { g with pendingProposals := [] }

/-- Wrap a framed content body into an outbound message following the group's
outgoing wire format policy. -/
def MlsGroup.frameOut (g : MlsGroup) (body : FramedContentBody) : MlsMessageOut :=
  match g.config.wireFormatPolicy.outgoing with
  | .alwaysPlaintext =>
    ⟨.publicMessage
      { groupId := g.groupId, epoch := g.epoch, sender := .member g.ownLeafIndex,
        body := body, signer := g.credential }⟩
  | .alwaysCiphertext =>
    ⟨.privateMessage
      { groupId := g.groupId, epoch := g.epoch, senderIndex := g.ownLeafIndex,
        body := body, signer := g.credential,
        encSecret := g.epochSecret.derive "encryption" }⟩

/-- Modelled from the spec, sec. 4.7 (Remove: target is a current Member):
true for a queued Remove proposal whose target leaf is blank or absent. -/
def removesNonMember (t : RatchetTree) (qp : QueuedProposal) : Bool :=
  match qp.proposal with
  | .remove i => (t.getD i none).isNone
  | _ => false

/-- Modelled from the spec, sec. 2, 4.7, 4.8 and 9: creating a commit works
on a staged copy only. The proposal list is the pending (by-reference)
proposals followed by the inline ones, validated as a group at commit time: a
Remove of the committer's own leaf fails with CannotRemoveSelf, and a Remove
whose target is not a current member (a blank or absent leaf) is invalid;
otherwise the candidate state is staged as the pending commit, a Welcome is
produced when the commit adds members, and the live state is untouched. The
commit secret is a fresh path secret (seed). -/
def MlsGroup.createCommit (g : MlsGroup) (inline : List QueuedProposal)
    (seed : Nat) :
    Except CreateCommitError (MlsGroup × MlsMessageOut × Option Welcome) :=
  let qps := g.pendingProposals ++ inline
  if qps.any (fun qp => decide (qp.proposal = .remove g.ownLeafIndex)) then
    .error .cannotRemoveSelf
  else if qps.any (removesNonMember g.tree) then
    .error .invalidRemoveTarget
  else
    let c : Commit :=
      { proposals := qps,
        path := some { credential := g.credential, encryptionKey := seed },
        commitSecret := .fresh seed }
    let sc := g.stageCommit c
    let welcome :=
      if qps.any (fun qp => qp.proposal matches .add _) then
        some { groupId := g.groupId, epoch := sc.newEpoch, tree := sc.newTree,
               epochSecret := sc.newEpochSecret : Welcome }
      else none
    .ok ({ g with pendingCommit := some sc }, g.frameOut (.commit c), welcome)

/-- Modelled from the spec, sec. 6 and scenario S6: add_members errors on an
empty key package list, on an inactive group and on an existing pending
commit, and otherwise creates (but does not merge) a commit with one inline
Add per key package. -/
def MlsGroup.addMembers (g : MlsGroup) (kps : List KeyPackage) (seed : Nat) :
    Except AddMembersError (MlsGroup × MlsMessageOut × Option Welcome) :=
  if g.active = false then .error (.groupStateError .useAfterEviction)
  else if kps.isEmpty then .error (.emptyInput .addMembers)
  else if g.pendingCommit.isSome then .error (.groupStateError .pendingCommitExists)
  else
    match g.createCommit (kps.map fun kp => ⟨.add kp, .member g.ownLeafIndex⟩) seed with
    | .error e => .error (.createCommitError e)
    | .ok out => .ok out

/-- Modelled from the spec, sec. 6 and scenario S6: remove_members, analogous
to add_members with inline Remove proposals. -/
def MlsGroup.removeMembers (g : MlsGroup) (indices : List Nat) (seed : Nat) :
    Except RemoveMembersError (MlsGroup × MlsMessageOut × Option Welcome) :=
  if g.active = false then .error (.groupStateError .useAfterEviction)
  else if indices.isEmpty then .error (.emptyInput .removeMembers)
  else if g.pendingCommit.isSome then .error (.groupStateError .pendingCommitExists)
  else
    match g.createCommit (indices.map fun i => ⟨.remove i, .member g.ownLeafIndex⟩) seed with
    | .error e => .error (.createCommitError e)
    | .ok out => .ok out

/-- Modelled from the spec, sec. 6: commit_to_pending_proposals commits the
stored proposals with no inline ones. -/
def MlsGroup.commitToPendingProposals (g : MlsGroup) (seed : Nat) :
    Except CommitToPendingProposalsError (MlsGroup × MlsMessageOut × Option Welcome) :=
  if g.active = false then .error (.groupStateError .useAfterEviction)
  else if g.pendingCommit.isSome then .error (.groupStateError .pendingCommitExists)
  else
    match g.createCommit [] seed with
    | .error e => .error (.createCommitError e)
    | .ok out => .ok out

/-- Modelled from the spec, sec. 4.8: an Inactive group cannot create new
messages; an active one frames application data under the current epoch. -/
def MlsGroup.createMessage (g : MlsGroup) (bytes : Bytes) :
    Except CreateMessageError MlsMessageOut :=
  if g.active = false then .error (.groupStateError .useAfterEviction)
  else .ok (g.frameOut (.application bytes))

/-- Modelled from the spec, sec. 6: leave_group produces a standalone Remove
proposal for the local leaf, to be committed by another member. -/
def MlsGroup.leaveGroup (g : MlsGroup) :
    Except LeaveGroupError MlsMessageOut :=
  if g.active = false then .error (.groupStateError .useAfterEviction)
  else .ok (g.frameOut (.proposal (.remove g.ownLeafIndex)))

/-- Modelled from the spec, sec. 6 and the external_proposal tests:
JoinProposal::new builds a plaintext PublicMessage with sender
NewMemberProposal carrying an Add of the given key package, signed by the
given credential, independent of any wire format policy. -/
def JoinProposal.new (kp : KeyPackage) (gid : Bytes) (epoch : Nat)
    (signer : Credential) : MlsMessageOut :=
  ⟨.publicMessage
    { groupId := gid, epoch := epoch, sender := .newMemberProposal,
      body := .proposal (.add kp), signer := signer }⟩

/-- Modelled from the spec: the results of process_message, sec. 4.8, with the
ExternalJoinProposalMessage variant matched by the external_proposal tests. -/
inductive ProcessedMessageContent where
  | applicationMessage (bytes : Bytes)
  | proposalMessage (p : QueuedProposal)
  | externalJoinProposalMessage (p : QueuedProposal)
  | stagedCommitMessage (sc : StagedCommit)
  deriving DecidableEq

/-- Dispatch verified framed content by kind (sec. 4.8 step 4): application
data is returned, a proposal is returned for the caller to store, a commit is
staged against the live state without merging it. -/
def MlsGroup.dispatchContent (g : MlsGroup) (s : Sender)
    (body : FramedContentBody) :
    Except ProcessMessageError ProcessedMessageContent :=
  match body with
  | .application bytes => .ok (.applicationMessage bytes)
  | .proposal p =>
    match s with
    | .newMemberProposal => .ok (.externalJoinProposalMessage ⟨p, s⟩)
    | _ => .ok (.proposalMessage ⟨p, s⟩)
  | .commit c => .ok (.stagedCommitMessage (g.stageCommit c))

/-- Modelled from the spec, sec. 4.8 steps 2 and 3, for public messages:
group id and epoch must match; the signature is verified against the sender's
leaf credential for members, and for a NewMemberProposal sender against the
credential inside the key package of its Add proposal - any other content
under that sender fails NotAnExternalAddProposal (sec. 4.6). A
NewMemberCommit must be a commit carrying exactly one ExternalInit and a
path (sec. 4.7). Senders of kind External resolve against the external
senders extension, which the spec leaves to the injected authentication
service; the model rejects them as unknown. -/
def MlsGroup.processPublicMessage (g : MlsGroup) (m : PublicMessage) :
    Except ProcessMessageError ProcessedMessageContent :=
  if m.groupId ≠ g.groupId then .error (.validationError .wrongGroupId)
  else if m.epoch ≠ g.epoch then .error (.validationError .wrongEpoch)
  else
    match m.sender with
    | .member i =>
      match g.tree.getD i none with
      | none => .error (.validationError .unknownMember)
      | some leaf =>
        if m.signer ≠ leaf.credential then .error .invalidSignature
        else g.dispatchContent (.member i) m.body
    | .newMemberProposal =>
      match m.body with
      | .proposal (.add kp) =>
        if m.signer ≠ kp.credential then .error .invalidSignature
        else .ok (.externalJoinProposalMessage ⟨.add kp, .newMemberProposal⟩)
      | _ => .error (.validationError .notAnExternalAddProposal)
    | .newMemberCommit =>
      match m.body with
      | .commit c =>
        if (c.proposals.countP fun qp => qp.proposal.isExternalInit) ≠ 1 then
          .error (.validationError .invalidExternalCommit)
        else
          match c.path with
          | none => .error (.validationError .invalidExternalCommit)
          | some leaf =>
            if m.signer ≠ leaf.credential then .error .invalidSignature
            else .ok (.stagedCommitMessage (g.stageCommit c))
      | _ => .error (.validationError .invalidExternalCommit)
    | .externalIndex _ => .error (.validationError .unknownMember)

/-- Private messages (sec. 4.8 step 1): symbolic AEAD opening succeeds when
the receiver derives the same encryption secret; then the sender leaf must
exist and the signature verify. -/
def MlsGroup.processPrivateMessage (g : MlsGroup) (m : PrivateMessage) :
    Except ProcessMessageError ProcessedMessageContent :=
  if m.groupId ≠ g.groupId then .error (.validationError .wrongGroupId)
  else if m.epoch ≠ g.epoch then .error (.validationError .wrongEpoch)
  else if m.encSecret ≠ g.epochSecret.derive "encryption" then .error .unableToDecrypt
  else
    match g.tree.getD m.senderIndex none with
    | none => .error (.validationError .unknownMember)
    | some leaf =>
      if m.signer ≠ leaf.credential then .error .invalidSignature
      else g.dispatchContent (.member m.senderIndex) m.body

/-- Modelled from the spec, sec. 4.8, and the external_proposal tests:
process_message requires an active group, checks the incoming wire format
policy for messages from group members (messages from external senders are
always plaintext and bypass the check, as the test
external_add_proposal_should_succeed shows for every policy), then verifies
and dispatches. Processing never mutates the live group state. -/
def MlsGroup.processMessage (g : MlsGroup) (msg : ProtocolMessage) :
    Except ProcessMessageError ProcessedMessageContent :=
  if g.active = false then .error (.groupStateError .useAfterEviction)
  else if !msg.isExternal
      && !(g.config.wireFormatPolicy.incoming.accepts msg.wireFormat msg.contentType) then
    .error .incompatibleWireFormat
  else
    match msg with
    | .publicMessage m => g.processPublicMessage m
    | .privateMessage m => g.processPrivateMessage m

/-- Modelled from the spec, sec. 6 (group persistence): the single blob a
group serializes to, holding the config, group context data, ratchet tree,
key schedule material, pending proposals and the optional staged commit. -/
structure SerializedMlsGroup where
  config : MlsGroupConfig
  groupId : Bytes
  epoch : Nat
  tree : RatchetTree
  epochSecret : SecretExpr
  ownLeafIndex : Nat
  credential : Credential
  pendingProposals : List QueuedProposal
  pendingCommit : Option StagedCommit
  deriving DecidableEq

/-- save(writer): serialize the group state to a single blob. -/
def MlsGroup.save (g : MlsGroup) : SerializedMlsGroup :=
  { config := g.config, groupId := g.groupId, epoch := g.epoch, tree := g.tree,
    epochSecret := g.epochSecret, ownLeafIndex := g.ownLeafIndex,
    credential := g.credential, pendingProposals := g.pendingProposals,
    pendingCommit := g.pendingCommit }

/-- Modelled from the spec, sec. 6: load(reader) restores the group in Active
state from the blob. -/
def MlsGroup.load (s : SerializedMlsGroup) : MlsGroup :=
  { config := s.config, groupId := s.groupId, epoch := s.epoch, tree := s.tree,
    epochSecret := s.epochSecret, ownLeafIndex := s.ownLeafIndex,
    credential := s.credential, active := true,
    pendingProposals := s.pendingProposals, pendingCommit := s.pendingCommit }

/-- Two members agree on the shared (public plus key-schedule) group state:
group id, epoch, tree and epoch secret. Member-local data (own leaf index,
credential, config) may differ. -/
def SharedStateEq (g1 g2 : MlsGroup) : Prop :=
  g1.groupId = g2.groupId ∧ g1.epoch = g2.epoch ∧ g1.tree = g2.tree ∧
    g1.epochSecret = g2.epochSecret

/-- Scenario S1: a creator makes a group, adds one invitee by commit and
merges the pending commit; None when a step fails. -/
def scenarioAddFirstInvitee (config : MlsGroupConfig) (gid : Bytes)
    (cred : Credential) (encKey seed : Nat) (kp : KeyPackage) (commitSeed : Nat) :
    Option MlsGroup :=
  match (MlsGroup.new config gid cred encKey seed).addMembers [kp] commitSeed with
  | .ok (g1, _, _) => g1.mergePendingCommit.toOption
  | .error _ => none

/-- A sample credential (identity Alice). -/
def credA : Credential := ⟨[65], [100]⟩

/-- A sample credential (identity Bob). -/
def credB : Credential := ⟨[66], [101]⟩

/-- A sample credential (identity Charlie). -/
def credC : Credential := ⟨[67], [102]⟩

/-- A sample credential (identity Attacker). -/
def credX : Credential := ⟨[88], [103]⟩

/-- A sample key package for Bob. -/
def kpB : KeyPackage := ⟨credB, 7, 8⟩

/-- A sample key package for Charlie. -/
def kpC : KeyPackage := ⟨credC, 9, 10⟩

/-- A configuration with the pure plaintext policy. -/
def cfgPlain : MlsGroupConfig := ⟨purePlaintextWireFormatPolicy⟩

/-- A configuration with the pure ciphertext policy. -/
def cfgCipher : MlsGroupConfig := ⟨pureCiphertextWireFormatPolicy⟩

/-- A sample group created by Alice under the plaintext policy. -/
def gA : MlsGroup := MlsGroup.new cfgPlain [1, 2, 3] credA 5 0

/-- A sample group created by Alice under the ciphertext policy. -/
def gAC : MlsGroup := MlsGroup.new cfgCipher [1, 2, 3] credA 5 0

deriving instance DecidableEq for Except

/-- A successful commit creation only records the staged commit; every other
live field of the group is the one it started with. -/
theorem createCommit_sets_only_pending {g : MlsGroup} {inl : List QueuedProposal}
    {seed : Nat} {g' : MlsGroup} {msg : MlsMessageOut} {w : Option Welcome}
    (h : g.createCommit inl seed = .ok (g', msg, w)) :
    ∃ sc : StagedCommit, g' = { g with pendingCommit := some sc } := by
  unfold MlsGroup.createCommit at h
  dsimp only at h
  split at h
  · cases h
  split at h
  · cases h
  · simp only [Except.ok.injEq, Prod.mk.injEq] at h
    exact ⟨_, h.1.symm⟩

/-- add_members succeeds only by creating a commit. -/
theorem addMembers_ok_createCommit {g : MlsGroup} {kps : List KeyPackage}
    {seed : Nat} {out : MlsGroup × MlsMessageOut × Option Welcome}
    (h : g.addMembers kps seed = .ok out) :
    g.createCommit (kps.map fun kp => ⟨.add kp, .member g.ownLeafIndex⟩) seed = .ok out := by
  unfold MlsGroup.addMembers at h
  split at h
  · cases h
  · split at h
    · cases h
    · split at h
      · cases h
      · split at h
        · cases h
        · cases h
          assumption

/-- remove_members succeeds only by creating a commit. -/
theorem removeMembers_ok_createCommit {g : MlsGroup} {idxs : List Nat}
    {seed : Nat} {out : MlsGroup × MlsMessageOut × Option Welcome}
    (h : g.removeMembers idxs seed = .ok out) :
    g.createCommit (idxs.map fun i => ⟨.remove i, .member g.ownLeafIndex⟩) seed = .ok out := by
  unfold MlsGroup.removeMembers at h
  split at h
  · cases h
  · split at h
    · cases h
    · split at h
      · cases h
      · split at h
        · cases h
        · cases h
          assumption

/-- commit_to_pending_proposals succeeds only by creating a commit. -/
theorem commitToPending_ok_createCommit {g : MlsGroup} {seed : Nat}
    {out : MlsGroup × MlsMessageOut × Option Welcome}
    (h : g.commitToPendingProposals seed = .ok out) :
    g.createCommit [] seed = .ok out := by
  unfold MlsGroup.commitToPendingProposals at h
  split at h
  · cases h
  · split at h
    · cases h
    · split at h
      · cases h
      · cases h
        assumption

/-- The staged commit produced by a successful commit creation is the staging
of a commit against the live state, so its epoch is the live epoch plus one
(modulo the 64-bit counter). -/
theorem createCommit_pending_epoch {g : MlsGroup} {inl : List QueuedProposal}
    {seed : Nat} {g' : MlsGroup} {msg : MlsMessageOut} {w : Option Welcome}
    (h : g.createCommit inl seed = .ok (g', msg, w)) :
    ∃ sc : StagedCommit, g'.pendingCommit = some sc ∧
      sc.newEpoch = (g.epoch + 1) % epochModulus := by
  unfold MlsGroup.createCommit at h
  dsimp only at h
  split at h
  · cases h
  split at h
  · cases h
  · simp only [Except.ok.injEq, Prod.mk.injEq] at h
    exact ⟨_, by rw [← h.1], rfl⟩

/-- Staging a commit depends, apart from selfRemoved, only on the shared
state, so two members agreeing on it stage the same candidate state. -/
theorem stageCommit_shared {g1 g2 : MlsGroup} (hsh : SharedStateEq g1 g2)
    (c : Commit) :
    (g1.stageCommit c).newEpoch = (g2.stageCommit c).newEpoch ∧
      (g1.stageCommit c).newTree = (g2.stageCommit c).newTree ∧
      (g1.stageCommit c).newEpochSecret = (g2.stageCommit c).newEpochSecret := by
  obtain ⟨h1, h2, h3, h4⟩ := hsh
  simp [MlsGroup.stageCommit, h1, h2, h3, h4]

/-- Merging the same inbound commit preserves agreement on the shared state. -/
theorem mergeInboundCommit_shared {g1 g2 g1' g2' : MlsGroup}
    (hsh : SharedStateEq g1 g2) {c : Commit}
    (e1 : g1.mergeInboundCommit c = .ok g1')
    (e2 : g2.mergeInboundCommit c = .ok g2') :
    SharedStateEq g1' g2' := by
  unfold MlsGroup.mergeInboundCommit MlsGroup.mergeStagedCommit at e1 e2
  split at e1
  · cases e1
  · split at e2
    · cases e2
    · simp only [Except.ok.injEq] at e1 e2
      subst e1
      subst e2
      obtain ⟨hs1, hs2, hs3⟩ := stageCommit_shared hsh c
      exact ⟨hsh.1, hs1, hs2, hs3⟩

/-- Merging the same commit sequence preserves agreement on the shared state. -/
theorem mergeCommits_shared : ∀ (cs : List Commit) (g1 g2 g1' g2' : MlsGroup),
    SharedStateEq g1 g2 → g1.mergeCommits cs = .ok g1' →
    g2.mergeCommits cs = .ok g2' → SharedStateEq g1' g2'
  | [], g1, g2, g1', g2', hsh, e1, e2 => by
    unfold MlsGroup.mergeCommits at e1 e2
    simp only [Except.ok.injEq] at e1 e2
    subst e1
    subst e2
    exact hsh
  | c :: rest, g1, g2, g1', g2', hsh, e1, e2 => by
    unfold MlsGroup.mergeCommits at e1 e2
    cases hm1 : g1.mergeInboundCommit c with
    | error e =>
      rw [hm1] at e1
      cases e1
    | ok ga =>
      rw [hm1] at e1
      cases hm2 : g2.mergeInboundCommit c with
      | error e =>
        rw [hm2] at e2
        cases e2
      | ok gb =>
        rw [hm2] at e2
        exact mergeCommits_shared rest ga gb g1' g2'
          (mergeInboundCommit_shared hsh hm1 hm2) e1 e2

/-- Agreement on the shared state makes every exported observable equal. -/
theorem sharedStateEq_observables {g1 g2 : MlsGroup} (h : SharedStateEq g1 g2) :
    g1.epochAuthenticator = g2.epochAuthenticator ∧
      g1.exportRatchetTree = g2.exportRatchetTree ∧
      ∀ (label : String) (ctx : Bytes) (len : Nat),
        g1.exportSecret label ctx len = g2.exportSecret label ctx len := by
  obtain ⟨_, _, h3, h4⟩ := h
  refine ⟨?_, h3, ?_⟩
  · unfold MlsGroup.epochAuthenticator
    rw [h4]
  · intro label ctx len
    unfold MlsGroup.exportSecret
    rw [h4]

/-- C1: for every set of members that merged the same sequence of commits
starting from the same initial state (agreement on the shared group state; the
members may differ in leaf index, credential and configuration), at every
epoch - that is, after every prefix of the sequence - all members observe
identical epoch_authenticator(), identical export_ratchet_tree() and identical
export_secret(label, context, length) for every label, context and length. -/
theorem C1_convergence_same_commits (g1 g2 : MlsGroup) (cs : List Commit)
    (n : Nat) (g1' g2' : MlsGroup) (hsh : SharedStateEq g1 g2)
    (e1 : g1.mergeCommits (cs.take n) = .ok g1')
    (e2 : g2.mergeCommits (cs.take n) = .ok g2') :
    g1'.epochAuthenticator = g2'.epochAuthenticator ∧
      g1'.exportRatchetTree = g2'.exportRatchetTree ∧
      ∀ (label : String) (ctx : Bytes) (len : Nat),
        g1'.exportSecret label ctx len = g2'.exportSecret label ctx len :=
  sharedStateEq_observables (mergeCommits_shared (cs.take n) g1 g2 g1' g2' hsh e1 e2)

/-- Bob's view of the sample group: same shared state as gA, different leaf
index, credential and wire format policy. -/
def gBobShared : MlsGroup :=
  { gA with ownLeafIndex := 1, credential := credB, config := cfgCipher }

/-- A sample inbound commit adding Charlie. -/
def c1 : Commit :=
  { proposals := [⟨.add kpC, .member 0⟩], path := none, commitSecret := .fresh 20 }

/-- Alice's group after merging the sample commit. -/
def gA1 : MlsGroup := (gA.mergeCommits [c1]).toOption.getD gA

/-- Bob's group after merging the sample commit. -/
def gB1 : MlsGroup := (gBobShared.mergeCommits [c1]).toOption.getD gBobShared

/-- Witness for C1 at a concrete two-member history of one commit. -/
theorem C1_convergence_same_commits_witness :
    SharedStateEq gA gBobShared ∧
      gA.mergeCommits ([c1].take 1) = .ok gA1 ∧
      gBobShared.mergeCommits ([c1].take 1) = .ok gB1 ∧
      gA1.epochAuthenticator = gB1.epochAuthenticator ∧
      gA1.exportRatchetTree = gB1.exportRatchetTree ∧
      gA1.exportSecret "x" [] 32 = gB1.exportSecret "x" [] 32 := by
  have h := C1_convergence_same_commits gA gBobShared [c1] 1 gA1 gB1
    ⟨rfl, rfl, rfl, rfl⟩ rfl rfl
  exact ⟨⟨rfl, rfl, rfl, rfl⟩, rfl, rfl, h.1, h.2.1, h.2.2 "x" [] 32⟩

/-- Merging a staged commit installs exactly the staged fields, clears the
proposal store and pending commit, and deactivates exactly on selfRemoved. -/
theorem mergeStagedCommit_fields {g g' : MlsGroup} {sc : StagedCommit}
    (h : g.mergeStagedCommit sc = .ok g') :
    g'.epoch = sc.newEpoch ∧ g'.tree = sc.newTree ∧
      g'.epochSecret = sc.newEpochSecret ∧ g'.active = !sc.selfRemoved ∧
      g'.pendingProposals = [] ∧ g'.pendingCommit = none := by
  unfold MlsGroup.mergeStagedCommit at h
  split at h
  · cases h
  · simp only [Except.ok.injEq] at h
    subst h
    exact ⟨rfl, rfl, rfl, rfl, rfl, rfl⟩

/-- A staged commit handed out by content dispatch is the staging of some
commit against the live state. -/
theorem dispatchContent_staged {g : MlsGroup} {s : Sender}
    {body : FramedContentBody} {sc : StagedCommit}
    (h : g.dispatchContent s body = .ok (.stagedCommitMessage sc)) :
    ∃ c : Commit, sc = g.stageCommit c := by
  cases body with
  | application b => simp [MlsGroup.dispatchContent] at h
  | proposal p => cases s <;> simp [MlsGroup.dispatchContent] at h
  | commit c =>
    simp [MlsGroup.dispatchContent] at h
    exact ⟨c, h.symm⟩

/-- A staged commit handed out by public-message processing is the staging of
some commit against the live state. -/
theorem processPublicMessage_staged {g : MlsGroup} {m : PublicMessage}
    {sc : StagedCommit}
    (h : g.processPublicMessage m = .ok (.stagedCommitMessage sc)) :
    ∃ c : Commit, sc = g.stageCommit c := by
  unfold MlsGroup.processPublicMessage at h
  split at h
  · cases h
  split at h
  · cases h
  split at h
  · split at h
    · cases h
    · split at h
      · cases h
      · exact dispatchContent_staged h
  · split at h
    · split at h
      · cases h
      · simp at h
    · cases h
  · split at h
    · split at h
      · cases h
      · split at h
        · cases h
        · split at h
          · cases h
          · simp only [Except.ok.injEq, ProcessedMessageContent.stagedCommitMessage.injEq] at h
            exact ⟨_, h.symm⟩
    · cases h
  · cases h

/-- A staged commit handed out by private-message processing is the staging
of some commit against the live state. -/
theorem processPrivateMessage_staged {g : MlsGroup} {m : PrivateMessage}
    {sc : StagedCommit}
    (h : g.processPrivateMessage m = .ok (.stagedCommitMessage sc)) :
    ∃ c : Commit, sc = g.stageCommit c := by
  unfold MlsGroup.processPrivateMessage at h
  split at h
  · cases h
  split at h
  · cases h
  split at h
  · cases h
  split at h
  · cases h
  · split at h
    · cases h
    · exact dispatchContent_staged h

/-- A staged commit handed out by process_message is the staging of some
commit against the live state; in particular its epoch is the live epoch plus
one modulo the 64-bit counter. -/
theorem processMessage_staged {g : MlsGroup} {msg : ProtocolMessage}
    {sc : StagedCommit}
    (h : g.processMessage msg = .ok (.stagedCommitMessage sc)) :
    ∃ c : Commit, sc = g.stageCommit c := by
  unfold MlsGroup.processMessage at h
  split at h
  · cases h
  split at h
  · cases h
  cases msg with
  | publicMessage m => exact processPublicMessage_staged h
  | privateMessage m => exact processPrivateMessage_staged h

/-- After creating a commit and merging it, the epoch is the old epoch plus
one modulo the 64-bit counter. -/
theorem addMembers_merge_epoch {g : MlsGroup} {kps : List KeyPackage}
    {seed : Nat} {g1 : MlsGroup} {msg : MlsMessageOut} {w : Option Welcome}
    {g' : MlsGroup} (ha : g.addMembers kps seed = .ok (g1, msg, w))
    (hm : g1.mergePendingCommit = .ok g') :
    g'.epoch = (g.epoch + 1) % epochModulus := by
  obtain ⟨sc, hpc, hse⟩ := createCommit_pending_epoch (addMembers_ok_createCommit ha)
  unfold MlsGroup.mergePendingCommit at hm
  rw [hpc] at hm
  rw [(mergeStagedCommit_fields hm).1, hse]

/-- C2: epoch() is 0 at group creation; a merged commit - whether received
via process_message and merged with merge_staged_commit, or created locally
(add_members, commit_to_pending_proposals) and merged with
merge_pending_commit - increases epoch() by exactly 1 (as long as the 64-bit
counter does not wrap); and after the creator merges the commit adding the
first invitee the epoch equals 1. -/
theorem C2_epoch_monotonic :
    (∀ (config : MlsGroupConfig) (gid : Bytes) (cred : Credential)
        (encKey seed : Nat),
      (MlsGroup.new config gid cred encKey seed).epoch = 0)
    ∧ (∀ (g : MlsGroup) (msg : ProtocolMessage) (sc : StagedCommit)
        (g' : MlsGroup),
      g.processMessage msg = .ok (.stagedCommitMessage sc) →
      g.mergeStagedCommit sc = .ok g' → g.epoch + 1 < epochModulus →
      g'.epoch = g.epoch + 1)
    ∧ (∀ (g : MlsGroup) (kps : List KeyPackage) (seed : Nat) (g1 : MlsGroup)
        (msg : MlsMessageOut) (w : Option Welcome) (g' : MlsGroup),
      g.addMembers kps seed = .ok (g1, msg, w) →
      g1.mergePendingCommit = .ok g' → g.epoch + 1 < epochModulus →
      g'.epoch = g.epoch + 1)
    ∧ (∀ (g : MlsGroup) (seed : Nat) (g1 : MlsGroup) (msg : MlsMessageOut)
        (w : Option Welcome) (g' : MlsGroup),
      g.commitToPendingProposals seed = .ok (g1, msg, w) →
      g1.mergePendingCommit = .ok g' → g.epoch + 1 < epochModulus →
      g'.epoch = g.epoch + 1)
    ∧ (∀ (config : MlsGroupConfig) (gid : Bytes) (cred : Credential)
        (encKey seed : Nat) (kp : KeyPackage) (cseed : Nat) (g' : MlsGroup),
      scenarioAddFirstInvitee config gid cred encKey seed kp cseed = some g' →
      g'.epoch = 1) := by
  refine ⟨fun _ _ _ _ _ => rfl, ?_, ?_, ?_, ?_⟩
  · intro g msg sc g' hp hm hlt
    obtain ⟨c, rfl⟩ := processMessage_staged hp
    rw [(mergeStagedCommit_fields hm).1]
    show (g.epoch + 1) % epochModulus = g.epoch + 1
    exact Nat.mod_eq_of_lt hlt
  · intro g kps seed g1 msg w g' ha hm hlt
    rw [addMembers_merge_epoch ha hm]
    exact Nat.mod_eq_of_lt hlt
  · intro g seed g1 msg w g' hc hm hlt
    obtain ⟨sc, hpc, hse⟩ := createCommit_pending_epoch (commitToPending_ok_createCommit hc)
    unfold MlsGroup.mergePendingCommit at hm
    rw [hpc] at hm
    rw [(mergeStagedCommit_fields hm).1, hse]
    exact Nat.mod_eq_of_lt hlt
  · intro config gid cred encKey seed kp cseed g' hs
    unfold scenarioAddFirstInvitee at hs
    cases ha : (MlsGroup.new config gid cred encKey seed).addMembers [kp] cseed with
    | error e =>
      rw [ha] at hs
      cases hs
    | ok t =>
      rw [ha] at hs
      obtain ⟨g1, msg, w⟩ := t
      dsimp only at hs
      cases hmo : g1.mergePendingCommit with
      | error e =>
        rw [hmo] at hs
        cases hs
      | ok gm =>
        rw [hmo] at hs
        simp only [Except.toOption, Option.some.injEq] at hs
        subst hs
        rw [addMembers_merge_epoch ha hmo]
        show (0 + 1) % epochModulus = 1
        decide

/-- The group produced by the concrete S1 scenario. -/
def gS1 : MlsGroup :=
  (scenarioAddFirstInvitee cfgPlain [1, 2, 3] credA 5 0 kpB 11).getD gA

/-- Witness for C2 at the concrete sample group: Alice merges the commit that
adds Bob and reaches epoch 1. -/
theorem C2_epoch_monotonic_witness :
    gA.epoch + 1 < epochModulus ∧
      scenarioAddFirstInvitee cfgPlain [1, 2, 3] credA 5 0 kpB 11 = some gS1 ∧
      gS1.epoch = 1 :=
  ⟨by decide, rfl, C2_epoch_monotonic.2.2.2.2 cfgPlain [1, 2, 3] credA 5 0 kpB 11 gS1 rfl⟩

/-- C3: an inbound message whose sender is NewMemberProposal is accepted by
process_message only when its content is an Add proposal carrying the
sender's own key package (the outer signature credential is the one in the
key package); under this sender, any other content or proposal type - for
example a Remove proposal whose sender field was rewritten to
NewMemberProposal - fails with ValidationError NotAnExternalAddProposal. -/
theorem C3_newMemberProposal_reserved (g : MlsGroup) (m : PublicMessage)
    (hs : m.sender = .newMemberProposal) :
    (∀ r : ProcessedMessageContent,
      g.processMessage (.publicMessage m) = .ok r →
      ∃ kp : KeyPackage, m.body = .proposal (.add kp) ∧
        m.signer = kp.credential ∧
        r = .externalJoinProposalMessage ⟨.add kp, .newMemberProposal⟩)
    ∧ (g.active = true → m.groupId = g.groupId → m.epoch = g.epoch →
      m.body.isExternalAddBody = false →
      g.processMessage (.publicMessage m) =
        .error (.validationError .notAnExternalAddProposal)) := by
  have hext : (ProtocolMessage.publicMessage m).isExternal = true := by
    unfold ProtocolMessage.isExternal
    dsimp only
    rw [hs]
  constructor
  · intro r hr
    unfold MlsGroup.processMessage at hr
    split at hr
    · cases hr
    split at hr
    · cases hr
    dsimp only at hr
    unfold MlsGroup.processPublicMessage at hr
    split at hr
    · cases hr
    split at hr
    · cases hr
    rw [hs] at hr
    dsimp only at hr
    cases hb : m.body with
    | application b =>
      rw [hb] at hr
      cases hr
    | proposal p =>
      cases p with
      | add kp =>
        rw [hb] at hr
        dsimp only at hr
        split at hr
        · cases hr
        · rename_i hsig
          simp only [Except.ok.injEq] at hr
          exact ⟨kp, rfl, not_ne_iff.mp hsig, hr.symm⟩
      | update l =>
        rw [hb] at hr
        cases hr
      | remove i =>
        rw [hb] at hr
        cases hr
      | preSharedKey ps =>
        rw [hb] at hr
        cases hr
      | reInit gi =>
        rw [hb] at hr
        cases hr
      | externalInit ko =>
        rw [hb] at hr
        cases hr
      | groupContextExtensions e =>
        rw [hb] at hr
        cases hr
    | commit c =>
      rw [hb] at hr
      cases hr
  · intro hAct hgid hep hbody
    unfold MlsGroup.processMessage
    rw [if_neg (by simp [hAct]), if_neg (by simp [hext])]
    dsimp only
    unfold MlsGroup.processPublicMessage
    rw [if_neg (by simp [hgid]), if_neg (by simp [hep]), hs]
    dsimp only
    cases hb : m.body with
    | application b => rfl
    | proposal p =>
      cases p with
      | add kp =>
        rw [hb] at hbody
        simp [FramedContentBody.isExternalAddBody] at hbody
      | update l => rfl
      | remove i => rfl
      | preSharedKey ps => rfl
      | reInit gi => rfl
      | externalInit ko => rfl
      | groupContextExtensions e => rfl
    | commit c => rfl

/-- A Remove proposal message whose sender field was rewritten to
NewMemberProposal, as in the sender-abuse test. -/
def rewrittenRemoveMsg : PublicMessage :=
  { groupId := gA.groupId, epoch := gA.epoch, sender := .newMemberProposal,
    body := .proposal (.remove 1), signer := credA }

/-- Witness for C3: the sample group rejects the rewritten Remove proposal
with NotAnExternalAddProposal. -/
theorem C3_newMemberProposal_reserved_witness :
    rewrittenRemoveMsg.sender = .newMemberProposal ∧
      gA.active = true ∧
      rewrittenRemoveMsg.body.isExternalAddBody = false ∧
      gA.processMessage (.publicMessage rewrittenRemoveMsg) =
        .error (.validationError .notAnExternalAddProposal) :=
  ⟨rfl, rfl, rfl,
    (C3_newMemberProposal_reserved gA rewrittenRemoveMsg rfl).2 rfl rfl rfl rfl⟩

/-- Processing a join proposal addressed to the group reduces to the
signature check against the referenced key package's credential. -/
theorem processMessage_joinProposal (g : MlsGroup) (kp : KeyPackage)
    (signer : Credential) (hAct : g.active = true) :
    g.processMessage (JoinProposal.new kp g.groupId g.epoch signer).intoProtocolMessage =
      if signer ≠ kp.credential then .error .invalidSignature
      else .ok (.externalJoinProposalMessage ⟨.add kp, .newMemberProposal⟩) := by
  unfold JoinProposal.new MlsMessageOut.intoProtocolMessage
  dsimp only
  unfold MlsGroup.processMessage
  rw [if_neg (by simp [hAct])]
  rw [if_neg (by simp [ProtocolMessage.isExternal])]
  dsimp only
  unfold MlsGroup.processPublicMessage
  rw [if_neg (by simp), if_neg (by simp)]

/-- C4: a JoinProposal whose outer signature was produced with a credential
different from the credential inside the referenced key package fails
process_message with InvalidSignature; one signed by the key package's own
credential is processed successfully. -/
theorem C4_joinProposal_signed_by_referenced_key_package (g : MlsGroup)
    (kp : KeyPackage) (signer : Credential) (hAct : g.active = true) :
    (signer ≠ kp.credential →
      g.processMessage (JoinProposal.new kp g.groupId g.epoch signer).intoProtocolMessage =
        .error .invalidSignature)
    ∧ (signer = kp.credential →
      g.processMessage (JoinProposal.new kp g.groupId g.epoch signer).intoProtocolMessage =
        .ok (.externalJoinProposalMessage ⟨.add kp, .newMemberProposal⟩)) := by
  constructor
  · intro hne
    rw [processMessage_joinProposal g kp signer hAct, if_pos hne]
  · intro heq
    rw [processMessage_joinProposal g kp signer hAct, if_neg (by simp [heq])]

/-- Witness for C4: the attacker-signed join proposal for Charlie's key
package is rejected, the one signed by Charlie's credential is accepted. -/
theorem C4_joinProposal_signed_by_referenced_key_package_witness :
    gA.active = true ∧ credX ≠ kpC.credential ∧
      gA.processMessage (JoinProposal.new kpC gA.groupId gA.epoch credX).intoProtocolMessage =
        .error .invalidSignature ∧
      gA.processMessage (JoinProposal.new kpC gA.groupId gA.epoch kpC.credential).intoProtocolMessage =
        .ok (.externalJoinProposalMessage ⟨.add kpC, .newMemberProposal⟩) :=
  ⟨rfl, by decide,
    (C4_joinProposal_signed_by_referenced_key_package gA kpC credX rfl).1 (by decide),
    (C4_joinProposal_signed_by_referenced_key_package gA kpC kpC.credential rfl).2 rfl⟩

/-- C10: JoinProposal always builds a plaintext PublicMessage with sender
NewMemberProposal whose content is an Add proposal of exactly the given key
package, independent of any wire format policy; and every active group -
whatever its policy, including pure_ciphertext - processes such a message
signed by the key package's credential into an ExternalJoinProposalMessage
carrying that key package. -/
theorem C10_joinProposal_form_and_any_policy (kp : KeyPackage) (gid : Bytes)
    (ep : Nat) (signer : Credential) (g : MlsGroup) :
    (JoinProposal.new kp gid ep signer).body =
      .publicMessage { groupId := gid, epoch := ep, sender := .newMemberProposal,
                       body := .proposal (.add kp), signer := signer }
    ∧ (g.active = true →
      g.processMessage (JoinProposal.new kp g.groupId g.epoch kp.credential).intoProtocolMessage =
        .ok (.externalJoinProposalMessage ⟨.add kp, .newMemberProposal⟩)) := by
  constructor
  · rfl
  · intro hAct
    rw [processMessage_joinProposal g kp kp.credential hAct, if_neg (by simp)]

/-- Witness for C10 at the pure-ciphertext sample group: even there the
plaintext join proposal is accepted. -/
theorem C10_joinProposal_form_and_any_policy_witness :
    gAC.config.wireFormatPolicy = pureCiphertextWireFormatPolicy ∧
      gAC.active = true ∧
      gAC.processMessage (JoinProposal.new kpC gAC.groupId gAC.epoch kpC.credential).intoProtocolMessage =
        .ok (.externalJoinProposalMessage ⟨.add kpC, .newMemberProposal⟩) :=
  ⟨rfl, rfl,
    (C10_joinProposal_form_and_any_policy kpC gAC.groupId gAC.epoch kpC.credential gAC).2 rfl⟩

/-- The concrete plaintext join proposal addressed to the pure-ciphertext
sample group. -/
def joinPM : ProtocolMessage :=
  (JoinProposal.new kpC gAC.groupId gAC.epoch kpC.credential).intoProtocolMessage

/-- Counterexample to C9 as stated: the plaintext join proposal violates the
pure_ciphertext incoming policy of the sample group, yet process_message
accepts it instead of failing with IncompatibleWireFormat - the behaviour
pinned by the test external_add_proposal_should_succeed, which processes
plaintext external add proposals under every wire format policy. -/
theorem C9_counterexample_external_bypass :
    gAC.config.wireFormatPolicy = pureCiphertextWireFormatPolicy ∧
      gAC.config.wireFormatPolicy.incoming.accepts joinPM.wireFormat
        joinPM.contentType = false ∧
      gAC.processMessage joinPM =
        .ok (.externalJoinProposalMessage ⟨.add kpC, .newMemberProposal⟩) ∧
      gAC.processMessage joinPM ≠ .error .incompatibleWireFormat := by
  refine ⟨rfl, rfl, rfl, ?_⟩
  decide

/-- C9 amended: for every group and every inbound message that is not from an
external (non-member) sender, if the message's wire form violates the group's
wire format policy then process_message fails with IncompatibleWireFormat;
messages from external senders - in particular plaintext external join
proposals - bypass the incoming policy check. -/
theorem C9_wire_format_policy_enforced (g : MlsGroup) (msg : ProtocolMessage)
    (hAct : g.active = true) (hExt : msg.isExternal = false)
    (hInc : g.config.wireFormatPolicy.incoming.accepts msg.wireFormat
      msg.contentType = false) :
    g.processMessage msg = .error .incompatibleWireFormat := by
  unfold MlsGroup.processMessage
  rw [if_neg (by simp [hAct]), if_pos (by simp [hExt, hInc])]

/-- A handshake PublicMessage from a member, violating the pure-ciphertext
policy of the sample group. -/
def memberCommitMsg : PublicMessage :=
  { groupId := gAC.groupId, epoch := gAC.epoch, sender := .member 0,
    body := .commit { proposals := [], path := none, commitSecret := .fresh 3 },
    signer := credA }

/-- Witness for the amended C9: the member-sent plaintext commit is rejected
with IncompatibleWireFormat by the pure-ciphertext sample group. -/
theorem C9_wire_format_policy_enforced_witness :
    gAC.active = true ∧
      (ProtocolMessage.publicMessage memberCommitMsg).isExternal = false ∧
      gAC.config.wireFormatPolicy.incoming.accepts
        (ProtocolMessage.publicMessage memberCommitMsg).wireFormat
        (ProtocolMessage.publicMessage memberCommitMsg).contentType = false ∧
      gAC.processMessage (.publicMessage memberCommitMsg) =
        .error .incompatibleWireFormat :=
  ⟨rfl, rfl, rfl,
    C9_wire_format_policy_enforced gAC (.publicMessage memberCommitMsg) rfl rfl rfl⟩

/-- C5: a group becomes Inactive only by merging a commit that removes the
local leaf. process_message succeeds only on an active group and never
mutates it, so after staging such a commit and before merging the group is
still active; merging a staged commit with self_removed deactivates the group
and create_message then fails; merging any other staged commit leaves the
group active, and commit creation never changes activity. -/
theorem C5_inactive_only_by_self_remove :
    (∀ (g : MlsGroup) (msg : ProtocolMessage) (r : ProcessedMessageContent),
      g.processMessage msg = .ok r → g.isActive = true)
    ∧ (∀ (g : MlsGroup) (c : Commit) (g' : MlsGroup),
      g.mergeInboundCommit c = .ok g' → g'.isActive = false →
      (c.proposals.any fun qp => decide (qp.proposal = .remove g.ownLeafIndex)) = true)
    ∧ (∀ (g : MlsGroup) (sc : StagedCommit) (g' : MlsGroup),
      g.mergeStagedCommit sc = .ok g' → sc.selfRemoved = true →
      g'.isActive = false ∧ ∀ bytes : Bytes,
        g'.createMessage bytes = .error (.groupStateError .useAfterEviction))
    ∧ (∀ (g : MlsGroup) (sc : StagedCommit) (g' : MlsGroup),
      g.mergeStagedCommit sc = .ok g' → sc.selfRemoved = false →
      g'.isActive = true)
    ∧ (∀ (g : MlsGroup) (kps : List KeyPackage) (seed : Nat) (g1 : MlsGroup)
        (msg : MlsMessageOut) (w : Option Welcome),
      g.addMembers kps seed = .ok (g1, msg, w) → g1.isActive = g.isActive)
    ∧ (∀ (g : MlsGroup) (idxs : List Nat) (seed : Nat) (g1 : MlsGroup)
        (msg : MlsMessageOut) (w : Option Welcome),
      g.removeMembers idxs seed = .ok (g1, msg, w) → g1.isActive = g.isActive)
    ∧ (∀ (g : MlsGroup) (seed : Nat) (g1 : MlsGroup) (msg : MlsMessageOut)
        (w : Option Welcome),
      g.commitToPendingProposals seed = .ok (g1, msg, w) →
      g1.isActive = g.isActive) := by
  refine ⟨?_, ?_, ?_, ?_, ?_, ?_, ?_⟩
  · intro g msg r h
    unfold MlsGroup.processMessage at h
    split at h
    · cases h
    · rename_i hcond
      unfold MlsGroup.isActive
      cases hb : g.active
      · exact absurd hb hcond
      · rfl
  · intro g c g' h hIn
    unfold MlsGroup.mergeInboundCommit MlsGroup.mergeStagedCommit at h
    split at h
    · cases h
    · simp only [Except.ok.injEq] at h
      subst h
      unfold MlsGroup.isActive at hIn
      have hsr : (g.stageCommit c).selfRemoved = true := by
        cases hx : (g.stageCommit c).selfRemoved
        · rw [hx] at hIn
          exact absurd hIn (by simp)
        · rfl
      exact hsr
  · intro g sc g' h hsr
    have hf := mergeStagedCommit_fields h
    have hact : g'.active = false := by
      rw [hf.2.2.2.1, hsr]
      rfl
    refine ⟨hact, fun bytes => ?_⟩
    unfold MlsGroup.createMessage
    rw [if_pos hact]
  · intro g sc g' h hsr
    have hf := mergeStagedCommit_fields h
    unfold MlsGroup.isActive
    rw [hf.2.2.2.1, hsr]
    rfl
  · intro g kps seed g1 msg w h
    obtain ⟨sc, hh⟩ := createCommit_sets_only_pending (addMembers_ok_createCommit h)
    rw [hh]
    rfl
  · intro g idxs seed g1 msg w h
    obtain ⟨sc, hh⟩ := createCommit_sets_only_pending (removeMembers_ok_createCommit h)
    rw [hh]
    rfl
  · intro g seed g1 msg w h
    obtain ⟨sc, hh⟩ := createCommit_sets_only_pending (commitToPending_ok_createCommit h)
    rw [hh]
    rfl

/-- An inbound commit that removes the sample group's own leaf. -/
def removeCommit : Commit :=
  { proposals := [⟨.remove 0, .member 1⟩], path := none, commitSecret := .fresh 4 }

/-- The commit message carrying removeCommit, as sent to the sample group. -/
def removeCommitMsg : PublicMessage :=
  { groupId := gA.groupId, epoch := gA.epoch, sender := .member 0,
    body := .commit removeCommit, signer := credA }

/-- The sample group after merging the commit that removes its own leaf. -/
def gARemoved : MlsGroup := (gA.mergeInboundCommit removeCommit).toOption.getD gA

/-- Witness for C5: the sample group stages the self-removing commit while
still active, deactivates on merge, and can no longer create messages. -/
theorem C5_inactive_only_by_self_remove_witness :
    gA.processMessage (.publicMessage removeCommitMsg) =
        .ok (.stagedCommitMessage (gA.stageCommit removeCommit)) ∧
      gA.isActive = true ∧
      (gA.stageCommit removeCommit).selfRemoved = true ∧
      gA.mergeStagedCommit (gA.stageCommit removeCommit) = .ok gARemoved ∧
      gARemoved.isActive = false ∧
      gARemoved.createMessage [1] = .error (.groupStateError .useAfterEviction) := by
  have h3 := (C5_inactive_only_by_self_remove.2.2.1) gA (gA.stageCommit removeCommit)
    gARemoved rfl rfl
  have h1 := (C5_inactive_only_by_self_remove.1) gA (.publicMessage removeCommitMsg)
    (.stagedCommitMessage (gA.stageCommit removeCommit)) rfl
  exact ⟨rfl, h1, rfl, rfl, h3.1, h3.2 [1]⟩

/-- C6: committing a proposal set containing a Remove of the committer's own
leaf fails with CreateCommitError CannotRemoveSelf wrapped by
commit_to_pending_proposals; leave_group instead produces a standalone Remove
proposal of the local leaf, and a different member - one whose own leaf is
not the removed one, the removed leaf being a current member (sec. 4.7) -
can commit such a stored proposal successfully. -/
theorem C6_cannot_remove_self :
    (∀ (g : MlsGroup) (seed : Nat) (s : Sender),
      g.active = true → g.pendingCommit = none →
      (⟨.remove g.ownLeafIndex, s⟩ : QueuedProposal) ∈ g.pendingProposals →
      g.commitToPendingProposals seed =
        .error (.createCommitError .cannotRemoveSelf))
    ∧ (∀ g : MlsGroup, g.active = true →
      g.leaveGroup = .ok (g.frameOut (.proposal (.remove g.ownLeafIndex))))
    ∧ (∀ (g2 : MlsGroup) (i : Nat) (s : Sender) (seed : Nat),
      g2.active = true → g2.pendingCommit = none →
      g2.pendingProposals = [⟨.remove i, s⟩] → i ≠ g2.ownLeafIndex →
      (g2.tree.getD i none).isSome = true →
      ∃ out, g2.commitToPendingProposals seed = .ok out) := by
  refine ⟨?_, ?_, ?_⟩
  · intro g seed s hAct hpc hmem
    have hcc : g.createCommit [] seed = .error .cannotRemoveSelf := by
      unfold MlsGroup.createCommit
      dsimp only
      rw [if_pos]
      simp only [List.any_eq_true]
      exact ⟨⟨.remove g.ownLeafIndex, s⟩, by simpa using hmem, by simp⟩
    unfold MlsGroup.commitToPendingProposals
    rw [if_neg (by simp [hAct]), if_neg (by simp [hpc]), hcc]
  · intro g hAct
    unfold MlsGroup.leaveGroup
    rw [if_neg (by simp [hAct])]
  · intro g2 i s seed hAct hpc hpp hne hmem
    have hc1 : ¬(((g2.pendingProposals ++ ([] : List QueuedProposal)).any fun qp =>
        decide (qp.proposal = Proposal.remove g2.ownLeafIndex)) = true) := by
      rw [hpp]
      simp [hne]
    have hc2 : ¬(((g2.pendingProposals ++ ([] : List QueuedProposal)).any
        (removesNonMember g2.tree)) = true) := by
      rw [hpp]
      cases hx : g2.tree.getD i none with
      | none =>
        rw [hx] at hmem
        cases hmem
      | some leaf =>
        rw [List.getD_eq_getElem?_getD] at hx
        simp [removesNonMember, List.getD_eq_getElem?_getD, hx]
    have hcc : ∃ out, g2.createCommit [] seed = .ok out := by
      unfold MlsGroup.createCommit
      dsimp only
      rw [if_neg hc1, if_neg hc2]
      exact ⟨_, rfl⟩
    obtain ⟨out, hcc⟩ := hcc
    refine ⟨out, ?_⟩
    unfold MlsGroup.commitToPendingProposals
    rw [if_neg (by simp [hAct]), if_neg (by simp [hpc]), hcc]

/-- The two-leaf tree of the sample group after Bob joined. -/
def treeAB : RatchetTree :=
  [some { credential := credA, encryptionKey := 5 },
   some { credential := credB, encryptionKey := 8 }]

/-- Bob's view of the two-member sample group with his own leave proposal
stored: he may not commit it himself. -/
def gBobPending : MlsGroup :=
  { gA with tree := treeAB, ownLeafIndex := 1, credential := credB,
            pendingProposals := [⟨.remove 1, .member 1⟩] }

/-- Alice's view of the two-member sample group with Bob's leave proposal
stored: the removed leaf 1 is a current member, so she can commit it. -/
def gAlicePending : MlsGroup :=
  { gA with tree := treeAB,
            pendingProposals := [⟨.remove 1, .member 1⟩] }

/-- Witness for C6: Bob cannot commit his own remove; Alice, holding the
remove of current member Bob at leaf 1, can. -/
theorem C6_cannot_remove_self_witness :
    gBobPending.commitToPendingProposals 9 =
        .error (.createCommitError .cannotRemoveSelf) ∧
      gBobPending.leaveGroup =
        .ok (gBobPending.frameOut (.proposal (.remove 1))) ∧
      (gAlicePending.tree.getD 1 none).isSome = true ∧
      (∃ out, gAlicePending.commitToPendingProposals 9 = .ok out) := by
  refine ⟨?_, ?_, rfl, ?_⟩
  · exact C6_cannot_remove_self.1 gBobPending 9 (.member 1) rfl rfl (by simp [gBobPending])
  · exact C6_cannot_remove_self.2.1 gBobPending rfl
  · exact C6_cannot_remove_self.2.2 gAlicePending 1 (.member 1) 9 rfl rfl rfl (by decide) rfl

/-- A successful commit creation leaves every live observable of the group -
members, epoch, tree, epoch secret and everything exported from them -
exactly as it was; only the pending staged commit is recorded. -/
theorem createCommit_frame {g : MlsGroup} {inl : List QueuedProposal}
    {seed : Nat} {g1 : MlsGroup} {msg : MlsMessageOut} {w : Option Welcome}
    (h : g.createCommit inl seed = .ok (g1, msg, w)) :
    g1.members = g.members ∧ g1.epoch = g.epoch ∧ g1.tree = g.tree ∧
      g1.epochSecret = g.epochSecret ∧
      g1.epochAuthenticator = g.epochAuthenticator ∧
      ∀ (label : String) (ctx : Bytes) (len : Nat),
        g1.exportSecret label ctx len = g.exportSecret label ctx len := by
  obtain ⟨sc, hh⟩ := createCommit_sets_only_pending h
  subst hh
  exact ⟨rfl, rfl, rfl, rfl, rfl, fun _ _ _ => rfl⟩

/-- C7: creating a commit via add_members, remove_members or
commit_to_pending_proposals mutates only the staged copy - the live member
list, epoch, tree and exported secrets are unchanged - and only the
subsequent merge installs the staged epoch, tree and key schedule as the
live state. -/
theorem C7_commit_creation_only_stages :
    (∀ (g : MlsGroup) (kps : List KeyPackage) (seed : Nat) (g1 : MlsGroup)
        (msg : MlsMessageOut) (w : Option Welcome),
      g.addMembers kps seed = .ok (g1, msg, w) →
      g1.members = g.members ∧ g1.epoch = g.epoch ∧ g1.tree = g.tree ∧
        g1.epochSecret = g.epochSecret ∧
        ∀ (label : String) (ctx : Bytes) (len : Nat),
          g1.exportSecret label ctx len = g.exportSecret label ctx len)
    ∧ (∀ (g : MlsGroup) (idxs : List Nat) (seed : Nat) (g1 : MlsGroup)
        (msg : MlsMessageOut) (w : Option Welcome),
      g.removeMembers idxs seed = .ok (g1, msg, w) →
      g1.members = g.members ∧ g1.epoch = g.epoch ∧ g1.tree = g.tree ∧
        g1.epochSecret = g.epochSecret ∧
        ∀ (label : String) (ctx : Bytes) (len : Nat),
          g1.exportSecret label ctx len = g.exportSecret label ctx len)
    ∧ (∀ (g : MlsGroup) (seed : Nat) (g1 : MlsGroup) (msg : MlsMessageOut)
        (w : Option Welcome),
      g.commitToPendingProposals seed = .ok (g1, msg, w) →
      g1.members = g.members ∧ g1.epoch = g.epoch ∧ g1.tree = g.tree ∧
        g1.epochSecret = g.epochSecret ∧
        ∀ (label : String) (ctx : Bytes) (len : Nat),
          g1.exportSecret label ctx len = g.exportSecret label ctx len)
    ∧ (∀ (g : MlsGroup) (sc : StagedCommit) (g' : MlsGroup),
      g.pendingCommit = some sc → g.mergePendingCommit = .ok g' →
      g'.epoch = sc.newEpoch ∧ g'.tree = sc.newTree ∧
        g'.epochSecret = sc.newEpochSecret) := by
  refine ⟨?_, ?_, ?_, ?_⟩
  · intro g kps seed g1 msg w h
    have hf := createCommit_frame (addMembers_ok_createCommit h)
    exact ⟨hf.1, hf.2.1, hf.2.2.1, hf.2.2.2.1, hf.2.2.2.2.2⟩
  · intro g idxs seed g1 msg w h
    have hf := createCommit_frame (removeMembers_ok_createCommit h)
    exact ⟨hf.1, hf.2.1, hf.2.2.1, hf.2.2.2.1, hf.2.2.2.2.2⟩
  · intro g seed g1 msg w h
    have hf := createCommit_frame (commitToPending_ok_createCommit h)
    exact ⟨hf.1, hf.2.1, hf.2.2.1, hf.2.2.2.1, hf.2.2.2.2.2⟩
  · intro g sc g' hpc hm
    unfold MlsGroup.mergePendingCommit at hm
    rw [hpc] at hm
    have hf := mergeStagedCommit_fields hm
    exact ⟨hf.1, hf.2.1, hf.2.2.1⟩

/-- The result of the sample add_members call on the sample group. -/
def addOutA : MlsGroup × MlsMessageOut × Option Welcome :=
  (gA.addMembers [kpB] 11).toOption.getD (gA, gA.frameOut (.application []), none)

/-- Witness for C7: after Alice creates the commit adding Bob, her live
state is unchanged and the staged commit is pending; merging installs it. -/
theorem C7_commit_creation_only_stages_witness :
    gA.addMembers [kpB] 11 = .ok (addOutA.1, addOutA.2.1, addOutA.2.2) ∧
      addOutA.1.members = gA.members ∧ addOutA.1.epoch = gA.epoch ∧
      addOutA.1.tree = gA.tree ∧ addOutA.1.epochSecret = gA.epochSecret ∧
      addOutA.1.exportSecret "x" [] 32 = gA.exportSecret "x" [] 32 ∧
      gA.pendingCommit = none ∧ addOutA.1.pendingCommit.isSome = true := by
  have h := C7_commit_creation_only_stages.1 gA [kpB] 11 addOutA.1 addOutA.2.1
    addOutA.2.2 rfl
  exact ⟨rfl, h.1, h.2.1, h.2.2.1, h.2.2.2.1, h.2.2.2.2 "x" [] 32, rfl, rfl⟩

/-- C8: saving a group and loading it back yields a group whose
export_secret agrees with the original on every label, context and length -
and hence with every other member holding the same epoch secret - and the
loaded group is Active. -/
theorem C8_save_load_restores_exporter (g g2 : MlsGroup) (label : String)
    (ctx : Bytes) (len : Nat) :
    (MlsGroup.load g.save).exportSecret label ctx len =
        g.exportSecret label ctx len ∧
      (MlsGroup.load g.save).isActive = true ∧
      (g2.epochSecret = g.epochSecret →
        (MlsGroup.load g.save).exportSecret label ctx len =
          g2.exportSecret label ctx len) := by
  refine ⟨rfl, rfl, fun h => ?_⟩
  unfold MlsGroup.exportSecret
  rw [h]
  rfl

/-- Witness for C8: Bob's loaded group exports the same secret as before and
as Alice's group with the same epoch secret, and is active. -/
theorem C8_save_load_restores_exporter_witness :
    gBobShared.epochSecret = gA.epochSecret ∧
      (MlsGroup.load gBobShared.save).exportSecret "x" [] 32 =
        gBobShared.exportSecret "x" [] 32 ∧
      (MlsGroup.load gBobShared.save).isActive = true ∧
      (MlsGroup.load gBobShared.save).exportSecret "x" [] 32 =
        gA.exportSecret "x" [] 32 := by
  have h := C8_save_load_restores_exporter gBobShared gA "x" [] 32
  exact ⟨rfl, h.1, h.2.1, h.2.2 rfl⟩
